import Mathlib

/-!
Verification of the file-cloud service core (content-addressed upload and
lookup, `aws.go` / `web.go`) against its natural-language specification.
Bytes are modelled as `Nat` values below 256; machine words as `Nat`
reduced modulo `2 ^ 32`.
-/

/-- Reduce a natural number to a 32-bit word. -/
def w32 (n : Nat) : Nat := n % 4294967296

/-- Rotate a 32-bit word right by the given number of bits. -/
def rotr32 (x n : Nat) : Nat := w32 ((x >>> n) ||| (x <<< (32 - n)))

def bigSigma0 (x : Nat) : Nat := (rotr32 x 2) ^^^ (rotr32 x 13) ^^^ (rotr32 x 22)

def bigSigma1 (x : Nat) : Nat := (rotr32 x 6) ^^^ (rotr32 x 11) ^^^ (rotr32 x 25)

def smallSigma0 (x : Nat) : Nat := (rotr32 x 7) ^^^ (rotr32 x 18) ^^^ (x >>> 3)

def smallSigma1 (x : Nat) : Nat := (rotr32 x 17) ^^^ (rotr32 x 19) ^^^ (x >>> 10)

/-- The sixty-four SHA-256 round constants, written in decimal. -/
def shaK : List Nat :=
  [1116352408, 1899447441, 3049323471, 3921009573, 961987163, 1508970993,
   2453635748, 2870763221, 3624381080, 310598401, 607225278, 1426881987,
   1925078388, 2162078206, 2614888103, 3248222580, 3835390401, 4022224774,
   264347078, 604807628, 770255983, 1249150122, 1555081692, 1996064986,
   2554220882, 2821834349, 2952996808, 3210313671, 3336571891, 3584528711,
   113926993, 338241895, 666307205, 773529912, 1294757372, 1396182291,
   1695183700, 1986661051, 2177026350, 2456956037, 2730485921, 2820302411,
   3259730800, 3345764771, 3516065817, 3600352804, 4094571909, 275423344,
   430227734, 506948616, 659060556, 883997877, 958139571, 1322822218,
   1537002063, 1747873779, 1955562222, 2024104815, 2227730452, 2361852424,
   2428436474, 2756734187, 3204031479, 3329325298]

/-- State of the eight SHA-256 working variables. -/
structure Hash8 where
  a : Nat
  b : Nat
  c : Nat
  d : Nat
  e : Nat
  f : Nat
  g : Nat
  h : Nat

/-- The SHA-256 initial hash value, written in decimal. -/
def shaH0 : Hash8 :=
  { a := 1779033703, b := 3144134277, c := 1013904242, d := 2773480762,
    e := 1359893119, f := 2600822924, g := 528734635, h := 1541459225 }

/-- Big-endian conversion of a byte stream into 32-bit words. -/
def bytesToWords : List Nat → List Nat
  | b1 :: b2 :: b3 :: b4 :: rest =>
    ((b1 <<< 24) ||| (b2 <<< 16) ||| (b3 <<< 8) ||| b4) :: bytesToWords rest
  | _ => []

/-- Extend the sixteen block words into the full SHA-256 message schedule,
one extra word per step. -/
def extendW : Nat → List Nat → List Nat
  | 0, w => w
  | n + 1, w =>
    let nw := w32 (smallSigma1 (w.getD (w.length - 2) 0) + w.getD (w.length - 7) 0 +
                   smallSigma0 (w.getD (w.length - 15) 0) + w.getD (w.length - 16) 0)
    extendW n (w ++ [nw])

/-- One SHA-256 compression round, consuming a round constant paired with a
schedule word. -/
def shaRound (s : Hash8) (kw : Nat × Nat) : Hash8 :=
  let ch := (s.e &&& s.f) ^^^ ((s.e ^^^ 4294967295) &&& s.g)
  let maj := (s.a &&& s.b) ^^^ (s.a &&& s.c) ^^^ (s.b &&& s.c)
  let t1 := w32 (s.h + bigSigma1 s.e + ch + kw.1 + kw.2)
  let t2 := w32 (bigSigma0 s.a + maj)
  { a := w32 (t1 + t2), b := s.a, c := s.b, d := s.c,
    e := w32 (s.d + t1), f := s.e, g := s.f, h := s.g }

/-- Compress one 64-byte block into the running hash state. -/
def processBlock (s : Hash8) (block : List Nat) : Hash8 :=
  let ws := extendW 48 (bytesToWords block)
  let r := (shaK.zip ws).foldl shaRound s
  { a := w32 (s.a + r.a), b := w32 (s.b + r.b), c := w32 (s.c + r.c), d := w32 (s.d + r.d),
    e := w32 (s.e + r.e), f := w32 (s.f + r.f), g := w32 (s.g + r.g), h := w32 (s.h + r.h) }

/-- Big-endian 8-byte encoding of a 64-bit length. -/
def be64 (n : Nat) : List Nat :=
  [(n >>> 56) % 256, (n >>> 48) % 256, (n >>> 40) % 256, (n >>> 32) % 256,
   (n >>> 24) % 256, (n >>> 16) % 256, (n >>> 8) % 256, n % 256]

/-- Big-endian 4-byte encoding of a 32-bit word. -/
def be32 (n : Nat) : List Nat :=
  [(n >>> 24) % 256, (n >>> 16) % 256, (n >>> 8) % 256, n % 256]

/-- SHA-256 padding: a `0x80` byte, zeros up to 56 mod 64, then the bit
length in big-endian. -/
def padMessage (msg : List Nat) : List Nat :=
  let z := (119 - (msg.length % 64)) % 64
  msg ++ 128 :: List.replicate z 0 ++ be64 (8 * msg.length)

/-- Cut a byte stream into 64-byte blocks; the fuel argument bounds the
number of blocks and any value at least the stream length suffices. -/
def toBlocks : Nat → List Nat → List (List Nat)
  | 0, _ => []
  | _, [] => []
  | fuel + 1, l => l.take 64 :: toBlocks fuel (l.drop 64)

/-- SHA-256 of a byte stream, as the 32-byte digest.  Models the
`crypto/sha256` hashing performed by `Filename` in `aws.go`. -/
def sha256 (msg : List Nat) : List Nat :=
  let padded := padMessage msg
  let final := (toBlocks padded.length padded).foldl processBlock shaH0
  be32 final.a ++ be32 final.b ++ be32 final.c ++ be32 final.d ++
  be32 final.e ++ be32 final.f ++ be32 final.g ++ be32 final.h

/-- The URL-safe base64 alphabet used by Go's `base64.URLEncoding`. -/
def b64Alphabet : List Char :=
  "ABCDEFGHIJKLMNOPQRSTUVWXYZabcdefghijklmnopqrstuvwxyz0123456789-_".data

def b64Char (n : Nat) : Char := b64Alphabet.getD n 'A'

/-- URL-safe base64 encoding without padding, as produced by Go's
`base64.URLEncoding.WithPadding(base64.NoPadding)`. -/
def b64encode : List Nat → List Char
  | [] => []
  | [b1] => [b64Char (b1 >>> 2), b64Char ((b1 % 4) <<< 4)]
  | [b1, b2] => [b64Char (b1 >>> 2), b64Char (((b1 % 4) <<< 4) ||| (b2 >>> 4)),
                 b64Char ((b2 % 16) <<< 2)]
  | b1 :: b2 :: b3 :: rest =>
    b64Char (b1 >>> 2) :: b64Char (((b1 % 4) <<< 4) ||| (b2 >>> 4)) ::
    b64Char (((b2 % 16) <<< 2) ||| (b3 >>> 6)) :: b64Char (b3 % 64) :: b64encode rest

/-- `Filename` from `aws.go`: hash the content, encode the digest URL-safe
without padding, and join with the original name.  The Go version can only
fail when reading the stream; content is an in-memory byte list here, so
that branch is unreachable and the result is total. -/
def Filename (originalName : String) (file : List Nat) : String :=
  String.mk (b64encode (sha256 file)) ++ "/" ++ originalName

/-- `KEY_LENGTH` from `main.go`. -/
def KEY_LENGTH : Nat := 5

/-- `formatKey` from `aws.go`: the public token is a slash followed by the
first `KEY_LENGTH` characters of the key. -/
def formatKey (key : String) : String :=
  "/" ++ String.mk (key.data.take KEY_LENGTH)

/-- Go's `strings.Split` on a single-character separator, over the character
list of a string: splits at every occurrence of the separator. -/
def splitChars (sep : Char) : List Char → List (List Char)
  | [] => [[]]
  | c :: cs =>
    let r := splitChars sep cs
    if c = sep then [] :: r
    else
      match r with
      | h :: t => (c :: h) :: t
      | [] => [[c]]

/-- Go's `strings.ToLower`, restricted to the ASCII mapping. -/
def goToLower (s : String) : String := String.mk (s.data.map Char.toLower)

/-- Scan a reversed character list for Go's `filepath.Ext`: stop empty on a
path separator, emit the scanned suffix once a dot is reached. -/
def revExtAux : List Char → Option (List Char)
  | [] => none
  | c :: cs =>
    if c = '/' then none
    else if c = '.' then some [c]
    else (revExtAux cs).map (fun l => c :: l)

/-- Go's `filepath.Ext`: the suffix of the final path element starting at
its last dot, or empty when the final element has no dot. -/
def goExt (s : String) : String :=
  match revExtAux s.data.reverse with
  | none => ""
  | some l => String.mk l.reverse

/-- Bytes Go's `url.QueryEscape` leaves unescaped: ASCII alphanumerics and
the marks `-`, `.`, `_`, `~`. -/
def unreservedByte (b : Nat) : Bool :=
  (48 ≤ b && b ≤ 57) || (65 ≤ b && b ≤ 90) || (97 ≤ b && b ≤ 122) ||
  b == 45 || b == 46 || b == 95 || b == 126

def hexUpper (n : Nat) : Char := "0123456789ABCDEF".data.getD n '0'

/-- Escape one byte the way `url.QueryEscape` does: unreserved bytes pass
through, a space becomes `+`, everything else becomes `%XX`. -/
def escapeByte (b : Nat) : List Char :=
  if unreservedByte b then [Char.ofNat b]
  else if b == 32 then ['+']
  else ['%', hexUpper (b >>> 4), hexUpper (b % 16)]

/-- UTF-8 encoding of one character, as the bytes Go iterates over. -/
def utf8Bytes (c : Char) : List Nat :=
  let n := c.toNat
  if n < 128 then [n]
  else if n < 2048 then [192 ||| (n >>> 6), 128 ||| (n % 64)]
  else if n < 65536 then [224 ||| (n >>> 12), 128 ||| ((n >>> 6) % 64), 128 ||| (n % 64)]
  else [240 ||| (n >>> 18), 128 ||| ((n >>> 12) % 64), 128 ||| ((n >>> 6) % 64), 128 ||| (n % 64)]

/-- Go's `url.QueryEscape` applied to the UTF-8 bytes of a string. -/
def queryEscape (s : String) : String :=
  String.mk (((s.data.map utf8Bytes).flatten.map escapeByte).flatten)

/-- `StoredFile` from `aws.go`. -/
structure StoredFile where
  originalName : String
  url : String
  image : Bool
deriving DecidableEq

/-- The error values surfaced by the storage layer: the sentinel errors
`ErrorObjectMissing` and `ErrorInvalidKey` from `aws.go`, and every other
backing-store or presign error as an opaque message. -/
inductive AWSError where
  | objectMissing
  | invalidKey
  | other (msg : String)
deriving DecidableEq

/-- An object held by the backing store: a key and the content type
persisted with it. -/
structure S3Object where
  key : String
  contentType : String
deriving DecidableEq

/-- Model of the S3 collaborator behind the `S3API` and `S3PresignAPI`
interfaces of `aws.go`: the stored objects, per-operation injectable
failures (mirroring the test mocks), and the deterministic result of the
presigner. -/
structure S3Backend where
  objects : List S3Object
  listFail : Option AWSError
  getFail : Option AWSError
  putFail : Option AWSError
  presignFail : Option AWSError
  presignOf : String → String

/-- `ListObjectsV2` with a prefix and `MaxKeys`: the matching keys in
stored order, with their count. -/
def S3Backend.listObjectsV2 (b : S3Backend) (pfx : String) (maxKeys : Nat) :
    Except AWSError (Nat × List S3Object) :=
  match b.listFail with
  | some e => .error e
  | none =>
    let matched := (b.objects.filter (fun o => pfx.data.isPrefixOf o.key.data)).take maxKeys
    .ok (matched.length, matched)

/-- `GetObject`: metadata of the object stored under a key. -/
def S3Backend.getObject (b : S3Backend) (key : String) : Except AWSError S3Object :=
  match b.getFail with
  | some e => .error e
  | none =>
    match b.objects.find? (fun o => o.key == key) with
    | some o => .ok o
    | none => .error (.other "NoSuchKey")

/-- `PutObject`: append the object to the store. -/
def S3Backend.putObject (b : S3Backend) (key contentType : String) :
    Except AWSError S3Backend :=
  match b.putFail with
  | some e => .error e
  | none => .ok { b with objects := b.objects ++ [{ key := key, contentType := contentType }] }

/-- `PresignGetObject`: a time-limited signed URL for the key. -/
def S3Backend.presignGetObject (b : S3Backend) (key : String) : Except AWSError String :=
  match b.presignFail with
  | some e => .error e
  | none => .ok (b.presignOf key)

/-- The hashicorp LRU cache state, most recently used first. -/
abbrev LruCache := List (String × StoredFile)

/-- The LRU capacity fixed by `NewAWSClient` (`lru.New(128)`). -/
def lruCapacity : Nat := 128

/-- `lru.Cache.Get`: on a hit the entry moves to the front. -/
def lruGet (cache : LruCache) (key : String) : Option StoredFile × LruCache :=
  match cache.find? (fun p => p.fst == key) with
  | none => (none, cache)
  | some p => (some p.snd, (key, p.snd) :: cache.filter (fun q => !(q.fst == key)))

/-- `lru.Cache.Add`: insert at the front, dropping any entry with the same
key and evicting the least recently used entry beyond capacity. -/
def lruAdd (cache : LruCache) (key : String) (value : StoredFile) : LruCache :=
  ((key, value) :: cache.filter (fun q => !(q.fst == key))).take lruCapacity

/-- `AWSClient` from `aws.go`; the cache is `none` when the Go field is a
nil pointer. -/
structure AWSClient where
  bucket : String
  cdn : String
  backend : S3Backend
  cache : Option LruCache

/-- The cache-setup logic of `NewAWSClient` (`aws.go` lines 82-91): a cache
exists exactly when a CDN base is configured. -/
def NewAWSClient (bucket cdn : String) (backend : S3Backend) : AWSClient :=
  { bucket := bucket, cdn := cdn, backend := backend,
    cache := if cdn == "" then none else some [] }

/-- `cacheGet` from `aws.go`: a nil cache always misses. -/
def cacheGetF : Option LruCache → String → Option StoredFile × Option LruCache
  | none, _ => (none, none)
  | some cache, key =>
    match lruGet cache key with
    | (v, cache2) => (v, some cache2)

/-- `cacheSet` from `aws.go`: storing into a nil cache returns an error
(the message preserves the source's spelling), otherwise adds the entry. -/
def cacheSetF : Option LruCache → String → StoredFile → Except String LruCache
  | none, _, _ => .error "no cache initailized"
  | some cache, key, value => .ok (lruAdd cache key value)

/-- The backing-store operations a call performs, in order. -/
inductive S3Call where
  | put (key : String)
  | list (pfx : String)
  | get (key : String)
  | presign (key : String)
deriving DecidableEq

/-- `LookupFile` from `aws.go` (lines 136-204), for a client whose
collaborators behave as `S3Backend` describes.  Returns the Go method's
result, the client's cache after the call (the only client state the
method mutates), and the backing-store calls it performed in order. -/
def LookupFile (c : AWSClient) (pfx : String) :
    Except AWSError StoredFile × Option LruCache × List S3Call :=
  match cacheGetF c.cache pfx with
  | (some value, cache1) => (.ok value, cache1, [])
  | (none, cache1) =>
    match c.backend.listObjectsV2 pfx 1 with
    | .error e => (.error e, cache1, [.list pfx])
    | .ok (keyCount, contents) =>
      if keyCount < 1 then
        (.error .objectMissing, cache1, [.list pfx])
      else
        let objectKey := (contents.headD { key := "", contentType := "" }).key
        match c.backend.getObject objectKey with
        | .error _ => (.error .objectMissing, cache1, [.list pfx, .get objectKey])
        | .ok object =>
          let parts := splitChars '/' objectKey.data
          if parts.length < 2 then
            (.error .invalidKey, cache1, [.list pfx, .get objectKey])
          else
            let finish := fun (fileURL : String) (calls : List S3Call) =>
              let file : StoredFile :=
                { originalName := String.mk (parts.getD 1 []),
                  url := fileURL,
                  image := (splitChars '/' object.contentType.data).headD [] == "image".data }
              let cache2 :=
                match cacheSetF cache1 pfx file with
                | .ok newCache => some newCache
                | .error _ => cache1
              (Except.ok file, cache2, calls)
            if c.cdn == "" then
              match c.backend.presignGetObject objectKey with
              | .error e => (.error e, cache1, [.list pfx, .get objectKey, .presign objectKey])
              | .ok presignURL =>
                finish presignURL [.list pfx, .get objectKey, .presign objectKey]
            else
              finish (c.cdn ++ "/" ++ queryEscape objectKey) [.list pfx, .get objectKey]

/-- `UploadFile` from `aws.go` (lines 96-134): compute the key, look it up
for deduplication, and write only when the lookup reports the object
missing.  Returns the result, the client after the call, and the
backing-store calls performed. -/
def UploadFile (c : AWSClient) (fileHeaderName contentType : String) (content : List Nat) :
    Except AWSError String × AWSClient × List S3Call :=
  let key := Filename fileHeaderName content
  match LookupFile c key with
  | (.ok _, cache1, calls1) =>
    (.ok (formatKey key), { c with cache := cache1 }, calls1)
  | (.error e, cache1, calls1) =>
    if e = .objectMissing then
      match c.backend.putObject key contentType with
      | .error e2 => (.error e2, { c with cache := cache1 }, calls1 ++ [.put key])
      | .ok backend2 =>
        (.ok (formatKey key), { c with backend := backend2, cache := cache1 },
         calls1 ++ [.put key])
    else
      (.error e, { c with cache := cache1 }, calls1)

/-- The observable outcomes of a handler in `web.go`. -/
inductive HttpResponse where
  | redirect (status : Nat) (url : String)
  | notFound
  | serverError (msg : String)
deriving DecidableEq

/-- The message Go's `Error()` yields for each modelled error value. -/
def AWSError.message : AWSError → String
  | .objectMissing => "could not find object on S3"
  | .invalidKey => "encountered S3 object with unexpected key"
  | .other msg => msg

/-- `ServeError` from `web.go`: `ErrorObjectMissing` renders the 404 page,
every other error becomes a 500. -/
def ServeError (e : AWSError) : HttpResponse :=
  match e with
  | .objectMissing => .notFound
  | e => .serverError e.message

/-- `DirectHandler` from `web.go` (lines 125-146), with the storage
collaborator abstracted as the lookup outcome per key, as the
`StorageClient` interface allows: lower-case the extension, look the key
up, require the original name's lower-cased extension to match, and
redirect with HTTP 301.  The analytics beacon is external and not
modelled. -/
def DirectHandler (storage : String → Except AWSError StoredFile)
    (key rawExt : String) : HttpResponse :=
  let ext := goToLower rawExt
  match storage key with
  | .error e => ServeError e
  | .ok file =>
    let fileExt := goToLower (goExt file.originalName)
    if fileExt != "." ++ ext then ServeError .objectMissing
    else .redirect 301 file.url

/-- The collaborator modes in which no backing-store operation fails. -/
def S3Backend.noFailures (b : S3Backend) : Prop :=
  b.listFail = none ∧ b.getFail = none ∧ b.putFail = none ∧ b.presignFail = none

/-- A failure-free backend holding one well-formed object, used to instantiate
the theorems on concrete inputs. -/
def demoBackend : S3Backend :=
  { objects := [{ key := "h/a.txt", contentType := "text/plain" }],
    listFail := none, getFail := none, putFail := none, presignFail := none,
    presignOf := fun k => "SIG-" ++ k }

/-- A CDN-configured client over `demoBackend` without a cache. -/
def demoClientCdn : AWSClient :=
  { bucket := "b", cdn := "https://cdn", backend := demoBackend, cache := none }

/-- A CDN-configured client over `demoBackend` with an empty cache, as the
constructor builds it. -/
def demoClientCdnCache : AWSClient :=
  { bucket := "b", cdn := "https://cdn", backend := demoBackend, cache := some [] }

/-- A backend whose single object has a name portion that itself contains a
path separator. -/
def nestedBackend : S3Backend :=
  { objects := [{ key := "h/a/b", contentType := "text/plain" }],
    listFail := none, getFail := none, putFail := none, presignFail := none,
    presignOf := fun k => "SIG-" ++ k }

def nestedClient : AWSClient :=
  { bucket := "b", cdn := "https://cdn", backend := nestedBackend, cache := none }

/-- A backend whose metadata fetch fails while listing succeeds. -/
def failGetBackend : S3Backend :=
  { objects := [{ key := "h/a.txt", contentType := "text/plain" }],
    listFail := none, getFail := some (.other "timeout"), putFail := none,
    presignFail := none, presignOf := fun k => "SIG-" ++ k }

def failGetClient : AWSClient :=
  { bucket := "b", cdn := "https://cdn", backend := failGetBackend, cache := none }

/-- A backend storing an object whose content type is the bare word
`image`, with no slash. -/
def bareImageBackend : S3Backend :=
  { objects := [{ key := "h/pic", contentType := "image" }],
    listFail := none, getFail := none, putFail := none, presignFail := none,
    presignOf := fun k => "SIG-" ++ k }

def bareImageClient : AWSClient :=
  { bucket := "b", cdn := "https://cdn", backend := bareImageBackend, cache := none }

/-- A backend holding an object whose key has no path separator at all. -/
def badKeyBackend : S3Backend :=
  { objects := [{ key := "zzz", contentType := "text/plain" }],
    listFail := none, getFail := none, putFail := none, presignFail := none,
    presignOf := fun k => "SIG-" ++ k }

def badKeyClient : AWSClient :=
  { bucket := "b", cdn := "https://cdn", backend := badKeyBackend, cache := none }

/-- A failure-free backend with an empty store. -/
def emptyBackend : S3Backend :=
  { objects := [], listFail := none, getFail := none, putFail := none,
    presignFail := none, presignOf := fun k => "SIG-" ++ k }

def emptyClientCdn : AWSClient :=
  { bucket := "b", cdn := "https://cdn", backend := emptyBackend, cache := none }

/-- A storage collaborator for exercising the web handler: one token resolving
to a file named `report.TXT`. -/
def demoStorage : String → Except AWSError StoredFile :=
  fun key =>
    if key == "tok1" then
      .ok { originalName := "report.TXT", url := "https://u/x", image := false }
    else
      .error .objectMissing

/-! Helper lemmas about the string and list functions of the embedding. -/

theorem splitChars_ne_nil (sep : Char) (l : List Char) : splitChars sep l ≠ [] := by
  cases l with
  | nil => simp [splitChars]
  | cons c cs =>
    simp only [splitChars]
    split
    · simp
    · split <;> simp

theorem splitChars_length (sep : Char) (l : List Char) :
    (splitChars sep l).length = l.count sep + 1 := by
  induction l with
  | nil => simp [splitChars]
  | cons c cs ih =>
    simp only [splitChars]
    by_cases hc : c = sep
    · simp [hc, List.count_cons, ih]
    · simp only [if_neg hc]
      cases hr : splitChars sep cs with
      | nil => exact absurd hr (splitChars_ne_nil sep cs)
      | cons h t =>
        rw [hr] at ih
        simp only [List.length_cons] at ih ⊢
        have hbc : (c == sep) = false := by simpa using hc
        simp [List.count_cons, hbc]
        omega

theorem splitChars_headD (sep : Char) (l : List Char) :
    (splitChars sep l).headD [] = l.takeWhile (fun c => c != sep) := by
  induction l with
  | nil => simp [splitChars]
  | cons c cs ih =>
    simp only [splitChars]
    by_cases hc : c = sep
    · simp [hc, List.takeWhile_cons]
    · have hbc : (c != sep) = true := by simpa using hc
      cases hr : splitChars sep cs with
      | nil => exact absurd hr (splitChars_ne_nil sep cs)
      | cons h t =>
        rw [hr] at ih
        simp only [List.headD_cons] at ih
        simp [if_neg hc, List.takeWhile_cons, hbc, ← ih]

theorem splitChars_append_cons (sep : Char) (pre rest : List Char) (hp : sep ∉ pre) :
    splitChars sep (pre ++ sep :: rest) = pre :: splitChars sep rest := by
  induction pre with
  | nil => simp [splitChars]
  | cons c cs ih =>
    have hc : ¬ c = sep := by
      intro h
      exact hp (by simp [h])
    have hcs : sep ∉ cs := fun h => hp (List.mem_cons_of_mem _ h)
    simp only [List.cons_append, splitChars, List.append_eq, ih hcs, if_neg hc]

theorem b64encode_length : ∀ l : List Nat, (b64encode l).length = (4 * l.length + 2) / 3
  | [] => rfl
  | [_] => by simp [b64encode]
  | [_, _] => by simp [b64encode]
  | _ :: _ :: _ :: rest => by
    simp only [b64encode, List.length_cons, b64encode_length rest]
    omega

theorem b64Char_mem (n : Nat) : b64Char n ∈ b64Alphabet := by
  by_cases h : n < b64Alphabet.length
  · rw [b64Char, List.getD_eq_getElem _ _ h]
    exact List.getElem_mem h
  · rw [b64Char, List.getD_eq_default _ _ (Nat.le_of_not_lt h)]
    decide

theorem b64encode_mem : ∀ l : List Nat, ∀ ch ∈ b64encode l, ch ∈ b64Alphabet
  | [], ch, h => by simp [b64encode] at h
  | [b1], ch, h => by
    simp only [b64encode, List.mem_cons, List.not_mem_nil, or_false] at h
    rcases h with h | h <;> (rw [h]; exact b64Char_mem _)
  | [b1, b2], ch, h => by
    simp only [b64encode, List.mem_cons, List.not_mem_nil, or_false] at h
    rcases h with h | h | h <;> (rw [h]; exact b64Char_mem _)
  | b1 :: b2 :: b3 :: rest, ch, h => by
    simp only [b64encode, List.mem_cons] at h
    rcases h with h | h | h | h | h
    · rw [h]; exact b64Char_mem _
    · rw [h]; exact b64Char_mem _
    · rw [h]; exact b64Char_mem _
    · rw [h]; exact b64Char_mem _
    · exact b64encode_mem rest ch h

theorem sha256_length (msg : List Nat) : (sha256 msg).length = 32 := by
  simp [sha256, be32]

theorem takeWhile_all_stop {α : Type} (p : α → Bool) (a : α) (t : List α) :
    ∀ w : List α, (∀ x ∈ w, p x = true) → p a = false →
      (w ++ a :: t).takeWhile p = w
  | [], _, ha => by simp [List.takeWhile_cons, ha]
  | x :: xs, hall, ha => by
    have hx := hall x (by simp)
    simp only [List.cons_append, List.takeWhile_cons, hx, if_true]
    rw [takeWhile_all_stop p a t xs (fun y hy => hall y (by simp [hy])) ha]

theorem takeWhile_eq_iff (sep : Char) (w l : List Char) (hw : sep ∉ w) :
    l.takeWhile (fun c => c != sep) = w ↔ l = w ∨ w ++ [sep] <+: l := by
  constructor
  · intro h
    have hsplit := List.takeWhile_append_dropWhile (p := fun c => c != sep) (l := l)
    rw [h] at hsplit
    cases hd : l.dropWhile (fun c => c != sep) with
    | nil =>
      left
      rw [hd] at hsplit
      simpa using hsplit.symm
    | cons x xs =>
      right
      have hx : (fun c => c != sep) x = false := by
        have hh := List.head?_dropWhile_not (fun c => c != sep) l
        rw [hd] at hh
        simpa using hh
      have hxs : x = sep := by simpa using hx
      rw [hd, hxs] at hsplit
      exact ⟨xs, by rw [← hsplit]; simp⟩
  · intro h
    rcases h with h | ⟨t, ht⟩
    · rw [h]
      apply List.takeWhile_eq_self_iff.mpr
      intro x hx
      have hne : x ≠ sep := fun he => hw (he ▸ hx)
      simpa using hne
    · have ht2 : l = w ++ sep :: t := by
        rw [← ht]; simp
      rw [ht2]
      refine takeWhile_all_stop _ sep t w (fun x hx => ?_) (by simp)
      have hne : x ≠ sep := fun he => hw (he ▸ hx)
      simpa using hne

/-- A string produced by `Filename` always contains a path separator. -/
theorem filename_has_slash (name : String) (content : List Nat) :
    '/' ∈ (Filename name content).data := by
  show '/' ∈ (String.mk (b64encode (sha256 content)) ++ "/" ++ name).data
  have : (String.mk (b64encode (sha256 content)) ++ "/" ++ name).data
      = b64encode (sha256 content) ++ '/' :: name.data := by
    simp [String.ext_iff]
  rw [this]
  simp

/-! Structural lemmas about the cache and the lookup path. -/

theorem putObject_preserves (b : S3Backend) (key contentType : String) (b2 : S3Backend)
    (h : b.putObject key contentType = .ok b2) :
    b2.objects = b.objects ++ [{ key := key, contentType := contentType }] ∧
    b2.listFail = b.listFail ∧ b2.getFail = b.getFail ∧
    b2.putFail = b.putFail ∧ b2.presignFail = b.presignFail := by
  unfold S3Backend.putObject at h
  cases hp : b.putFail with
  | some e => rw [hp] at h; cases h
  | none =>
    rw [hp] at h
    cases h
    simp [hp]

theorem cacheGetF_miss_eq (oc : Option LruCache) (pfx : String)
    (h : (cacheGetF oc pfx).1 = none) : (cacheGetF oc pfx).2 = oc := by
  cases oc with
  | none => rfl
  | some cache =>
    simp only [cacheGetF, lruGet] at h ⊢
    cases hf : cache.find? (fun p => p.fst == pfx) with
    | none => simp [hf]
    | some p => simp [hf] at h

theorem cacheGetF_hit_shape (oc : Option LruCache) (pfx : String) (v : StoredFile)
    (cc : Option LruCache) (h : cacheGetF oc pfx = (some v, cc)) :
    ∃ rest, cc = some ((pfx, v) :: rest) := by
  cases oc with
  | none => simp [cacheGetF] at h
  | some cache =>
    simp only [cacheGetF, lruGet] at h
    cases hf : cache.find? (fun p => p.fst == pfx) with
    | none => rw [hf] at h; simp at h
    | some p =>
      rw [hf] at h
      simp only [Prod.mk.injEq, Option.some.injEq] at h
      exact ⟨cache.filter (fun q => !(q.fst == pfx)), by rw [← h.2, ← h.1]⟩

theorem cacheGetF_front_hit (pfx : String) (v : StoredFile) (rest : LruCache) :
    ∃ rest2, cacheGetF (some ((pfx, v) :: rest)) pfx = (some v, some ((pfx, v) :: rest2)) := by
  refine ⟨((pfx, v) :: rest).filter (fun q => !(q.fst == pfx)), ?_⟩
  simp only [cacheGetF, lruGet]
  rw [List.find?_cons_of_pos _ (by simp)]

theorem lruAdd_front (cache : LruCache) (pfx : String) (f : StoredFile) :
    ∃ rest, lruAdd cache pfx f = (pfx, f) :: rest := by
  refine ⟨(cache.filter (fun q => !(q.fst == pfx))).take 127, ?_⟩
  simp only [lruAdd, lruCapacity]
  rw [List.take_succ_cons]

/-! Characterization lemmas for the lookup path. -/

theorem lookupFile_cache_hit (c : AWSClient) (pfx : String) (v : StoredFile)
    (cc : Option LruCache) (h : cacheGetF c.cache pfx = (some v, cc)) :
    LookupFile c pfx = (.ok v, cc, []) := by
  unfold LookupFile
  rw [h]

theorem lookupFile_not_found (c : AWSClient) (pfx : String) (cc1 : Option LruCache)
    (hl : c.backend.listFail = none)
    (hnomatch : c.backend.objects.filter (fun o => pfx.data.isPrefixOf o.key.data) = [])
    (hmiss : cacheGetF c.cache pfx = (none, cc1)) :
    LookupFile c pfx = (.error .objectMissing, cc1, [.list pfx]) := by
  unfold LookupFile
  rw [hmiss]
  unfold S3Backend.listObjectsV2
  rw [hl, hnomatch]
  simp

theorem lookupFile_resolves (c : AWSClient) (pfx : String) (cc1 : Option LruCache)
    (hl : c.backend.listFail = none) (hg : c.backend.getFail = none)
    (hpre : c.backend.presignFail = none)
    (hslash : '/' ∈ pfx.data)
    (o : S3Object) (rest : List S3Object)
    (hmatch : c.backend.objects.filter (fun x => pfx.data.isPrefixOf x.key.data) = o :: rest)
    (hmiss : cacheGetF c.cache pfx = (none, cc1)) :
    ∃ f cc t, LookupFile c pfx = (.ok f, cc, t) ∧ (∀ k, S3Call.put k ∉ t) := by
  have homem : o ∈ c.backend.objects ∧ pfx.data.isPrefixOf o.key.data = true := by
    have : o ∈ c.backend.objects.filter (fun x => pfx.data.isPrefixOf x.key.data) := by
      rw [hmatch]; simp
    exact List.mem_filter.mp this
  have hkey_slash : '/' ∈ o.key.data :=
    (List.isPrefixOf_iff_prefix.mp homem.2).sublist.subset hslash
  have hparts : ¬ (splitChars '/' o.key.data).length < 2 := by
    rw [splitChars_length]
    have : 0 < o.key.data.count '/' := List.count_pos_iff.mpr hkey_slash
    omega
  have hfind : (c.backend.objects.find? (fun x => x.key == o.key)).isSome := by
    rw [List.find?_isSome]
    exact ⟨o, homem.1, by simp⟩
  obtain ⟨obj, hfo⟩ := Option.isSome_iff_exists.mp hfind
  have hget : c.backend.getObject o.key = .ok obj := by
    unfold S3Backend.getObject
    rw [hg, hfo]
  unfold LookupFile
  simp only [hmiss]
  unfold S3Backend.listObjectsV2
  simp only [hl, hmatch, List.take_succ_cons, List.take_zero, List.length_cons,
    List.length_nil, List.headD_cons, Nat.zero_add]
  rw [if_neg (show ¬ (1 : Nat) < 1 by omega)]
  simp only [hget]
  rw [if_neg hparts]
  by_cases hcdn : c.cdn == ""
  · have hpre2 : c.backend.presignGetObject o.key = .ok (c.backend.presignOf o.key) := by
      unfold S3Backend.presignGetObject
      rw [hpre]
    rw [if_pos hcdn]
    simp only [hpre2]
    refine ⟨_, _, _, rfl, ?_⟩
    intro k
    simp
  · rw [if_neg hcdn]
    refine ⟨_, _, _, rfl, ?_⟩
    intro k
    simp

theorem lookupFile_ok_inversion (c : AWSClient) (pfx : String) (f : StoredFile)
    (cc : Option LruCache) (t : List S3Call)
    (h : LookupFile c pfx = (.ok f, cc, t)) :
    (t = [] ∧ cacheGetF c.cache pfx = (some f, cc)) ∨
    ∃ cache1 kc contents obj,
      cacheGetF c.cache pfx = (none, cache1) ∧
      c.backend.listObjectsV2 pfx 1 = .ok (kc, contents) ∧
      ¬ kc < 1 ∧
      c.backend.getObject (contents.headD ⟨"", ""⟩).key = .ok obj ∧
      ¬ (splitChars '/' (contents.headD ⟨"", ""⟩).key.data).length < 2 ∧
      f.originalName = String.mk ((splitChars '/' (contents.headD ⟨"", ""⟩).key.data).getD 1 []) ∧
      f.image = ((splitChars '/' obj.contentType.data).headD [] == "image".data) ∧
      (cc = match cacheSetF cache1 pfx f with
            | .ok nc => some nc
            | .error _ => cache1) ∧
      ((c.cdn = "" ∧ t = [.list pfx, .get (contents.headD ⟨"", ""⟩).key,
          .presign (contents.headD ⟨"", ""⟩).key] ∧
        c.backend.presignGetObject (contents.headD ⟨"", ""⟩).key = .ok f.url) ∨
       (c.cdn ≠ "" ∧ t = [.list pfx, .get (contents.headD ⟨"", ""⟩).key] ∧
        f.url = c.cdn ++ "/" ++ queryEscape (contents.headD ⟨"", ""⟩).key)) := by
  unfold LookupFile at h
  cases hcg : cacheGetF c.cache pfx with
  | mk v cache1 =>
    cases v with
    | some v0 =>
      simp only [hcg] at h
      simp only [Prod.mk.injEq, Except.ok.injEq] at h
      left
      exact ⟨h.2.2.symm, by rw [h.1, h.2.1]⟩
    | none =>
      simp only [hcg] at h
      cases hlo : c.backend.listObjectsV2 pfx 1 with
      | error e =>
        rw [hlo] at h
        simp at h
      | ok p =>
        obtain ⟨kc, contents⟩ := p
        simp only [hlo] at h
        by_cases hkc : kc < 1
        · rw [if_pos hkc] at h
          simp at h
        · rw [if_neg hkc] at h
          cases hgo : c.backend.getObject (contents.headD ⟨"", ""⟩).key with
          | error e =>
            rw [hgo] at h
            simp at h
          | ok obj =>
            simp only [hgo] at h
            by_cases hparts : (splitChars '/' (contents.headD ⟨"", ""⟩).key.data).length < 2
            · rw [if_pos hparts] at h
              simp at h
            · rw [if_neg hparts] at h
              by_cases hcdn : c.cdn = ""
              · rw [if_pos (by simp [hcdn])] at h
                cases hps : c.backend.presignGetObject (contents.headD ⟨"", ""⟩).key with
                | error e =>
                  rw [hps] at h
                  simp at h
                | ok presignURL =>
                  simp only [hps] at h
                  simp only [Prod.mk.injEq, Except.ok.injEq] at h
                  obtain ⟨hf, hcc, ht⟩ := h
                  right
                  refine ⟨cache1, kc, contents, obj, rfl, rfl, hkc, hgo, hparts, ?_, ?_, ?_, ?_⟩
                  · rw [← hf]
                  · rw [← hf]
                  · rw [← hcc, ← hf]
                  · left
                    refine ⟨hcdn, ht.symm, ?_⟩
                    rw [hps, ← hf]
              · rw [if_neg (by simpa using hcdn)] at h
                simp only [Prod.mk.injEq, Except.ok.injEq] at h
                obtain ⟨hf, hcc, ht⟩ := h
                right
                refine ⟨cache1, kc, contents, obj, rfl, rfl, hkc, hgo, hparts, ?_, ?_, ?_, ?_⟩
                · rw [← hf]
                · rw [← hf]
                · rw [← hcc, ← hf]
                · right
                  refine ⟨hcdn, ht.symm, ?_⟩
                  rw [← hf]

theorem lookupFile_get_failure (c : AWSClient) (pfx : String) (cc1 : Option LruCache)
    (hl : c.backend.listFail = none) (e : AWSError) (hg : c.backend.getFail = some e)
    (o : S3Object) (rest : List S3Object)
    (hmatch : c.backend.objects.filter (fun x => pfx.data.isPrefixOf x.key.data) = o :: rest)
    (hmiss : cacheGetF c.cache pfx = (none, cc1)) :
    LookupFile c pfx = (.error .objectMissing, cc1, [.list pfx, .get o.key]) := by
  have hget : c.backend.getObject o.key = .error e := by
    unfold S3Backend.getObject
    rw [hg]
  unfold LookupFile
  simp only [hmiss]
  unfold S3Backend.listObjectsV2
  simp only [hl, hmatch, List.take_succ_cons, List.take_zero, List.length_cons,
    List.length_nil, List.headD_cons, Nat.zero_add]
  rw [if_neg (show ¬ (1 : Nat) < 1 by omega)]
  simp only [hget]

theorem lookupFile_invalid_key (c : AWSClient) (pfx : String) (cc1 : Option LruCache)
    (hl : c.backend.listFail = none) (hg : c.backend.getFail = none)
    (o : S3Object) (rest : List S3Object)
    (hmatch : c.backend.objects.filter (fun x => pfx.data.isPrefixOf x.key.data) = o :: rest)
    (hmiss : cacheGetF c.cache pfx = (none, cc1))
    (hnoslash : '/' ∉ o.key.data) :
    LookupFile c pfx = (.error .invalidKey, cc1, [.list pfx, .get o.key]) := by
  have homem : o ∈ c.backend.objects := by
    have : o ∈ c.backend.objects.filter (fun x => pfx.data.isPrefixOf x.key.data) := by
      rw [hmatch]; simp
    exact (List.mem_filter.mp this).1
  have hfind : (c.backend.objects.find? (fun x => x.key == o.key)).isSome := by
    rw [List.find?_isSome]
    exact ⟨o, homem, by simp⟩
  obtain ⟨obj, hfo⟩ := Option.isSome_iff_exists.mp hfind
  have hget : c.backend.getObject o.key = .ok obj := by
    unfold S3Backend.getObject
    rw [hg, hfo]
  have hparts : (splitChars '/' o.key.data).length < 2 := by
    rw [splitChars_length]
    have : o.key.data.count '/' = 0 := List.count_eq_zero.mpr hnoslash
    omega
  unfold LookupFile
  simp only [hmiss]
  unfold S3Backend.listObjectsV2
  simp only [hl, hmatch, List.take_succ_cons, List.take_zero, List.length_cons,
    List.length_nil, List.headD_cons, Nat.zero_add]
  rw [if_neg (show ¬ (1 : Nat) < 1 by omega)]
  simp only [hget]
  rw [if_pos hparts]

theorem filename_data (name : String) (content : List Nat) :
    (Filename name content).data = b64encode (sha256 content) ++ '/' :: name.data := by
  show ((String.mk (b64encode (sha256 content)) ++ "/") ++ name).data = _
  rw [String.data_append, String.data_append]
  simp

theorem filename_ne_of_name_ne (content : List Nat) (name1 name2 : String)
    (hne : name1 ≠ name2) : Filename name1 content ≠ Filename name2 content := by
  intro h
  apply hne
  have hd := congrArg String.data h
  rw [filename_data, filename_data] at hd
  have h2 := List.append_cancel_left hd
  apply String.ext
  simpa using h2

/-- C2: `Filename` returns the URL-safe, no-padding base64 encoding of the
SHA-256 digest of the content bytes, followed by a slash and the original
name verbatim; every encoded character is in the URL-safe alphabet and none
is a padding `=`; with the same content and two distinct names the two keys
share the identical 43-character hash portion but differ as full strings. -/
theorem filename_key_structure (content : List Nat) (name1 name2 : String)
    (hne : name1 ≠ name2) :
    Filename name1 content = String.mk (b64encode (sha256 content)) ++ "/" ++ name1 ∧
    Filename name2 content = String.mk (b64encode (sha256 content)) ++ "/" ++ name2 ∧
    (∀ ch ∈ b64encode (sha256 content), ch ∈ b64Alphabet ∧ ch ≠ '=') ∧
    (b64encode (sha256 content)).length = 43 ∧
    (Filename name1 content).data.take 43 = (Filename name2 content).data.take 43 ∧
    Filename name1 content ≠ Filename name2 content := by
  have hlen : (b64encode (sha256 content)).length = 43 := by
    rw [b64encode_length, sha256_length]
  refine ⟨rfl, rfl, ?_, hlen, ?_, filename_ne_of_name_ne content name1 name2 hne⟩
  · intro ch hch
    refine ⟨b64encode_mem _ ch hch, ?_⟩
    intro heq
    have hmem := b64encode_mem _ ch hch
    rw [heq] at hmem
    exact absurd hmem (by decide)
  · rw [filename_data, filename_data,
      show (43 : Nat) = (b64encode (sha256 content)).length from hlen.symm,
      List.take_left, List.take_left]

/-- C2 witness at concrete inputs: the names differ, and the theorem's
conclusions hold for the two-byte content `hi`. -/
theorem filename_key_structure_witness :
    ("a.txt" : String) ≠ "b.txt" ∧
    (Filename "a.txt" [104, 105]
        = String.mk (b64encode (sha256 [104, 105])) ++ "/" ++ "a.txt" ∧
     Filename "b.txt" [104, 105]
        = String.mk (b64encode (sha256 [104, 105])) ++ "/" ++ "b.txt" ∧
     (∀ ch ∈ b64encode (sha256 [104, 105]), ch ∈ b64Alphabet ∧ ch ≠ '=') ∧
     (b64encode (sha256 [104, 105])).length = 43 ∧
     (Filename "a.txt" [104, 105]).data.take 43
        = (Filename "b.txt" [104, 105]).data.take 43 ∧
     Filename "a.txt" [104, 105] ≠ Filename "b.txt" [104, 105]) :=
  ⟨by decide, filename_key_structure [104, 105] "a.txt" "b.txt" (by decide)⟩

/-- C3: when a CDN base is configured, a lookup that resolves a full key
returns exactly the CDN base joined by a slash with the URL-escaped full
key and never requests a signed URL; when no CDN base is configured the
returned URL is exactly what the presigning collaborator produced for the
resolved key. -/
theorem lookup_url_resolution (c : AWSClient) (pfx : String) (f : StoredFile)
    (cc : Option LruCache) (t : List S3Call)
    (h : LookupFile c pfx = (.ok f, cc, t)) :
    (c.cdn ≠ "" → ∀ k, S3Call.get k ∈ t →
      f.url = c.cdn ++ "/" ++ queryEscape k ∧ ∀ k2, S3Call.presign k2 ∉ t) ∧
    (c.cdn = "" → ∀ k, S3Call.presign k ∈ t →
      c.backend.presignGetObject k = .ok f.url) := by
  have hinv := lookupFile_ok_inversion c pfx f cc t h
  constructor
  · intro hcdn k hk
    rcases hinv with ⟨ht, _⟩ | ⟨c1, kc, cons, obj, _, _, _, _, _, _, _, _, hbr⟩
    · rw [ht] at hk
      simp at hk
    · rcases hbr with ⟨hcdn0, _, _⟩ | ⟨_, ht, hurl⟩
      · exact absurd hcdn0 hcdn
      · rw [ht] at hk
        simp only [List.mem_cons, List.not_mem_nil, or_false] at hk
        rcases hk with hk | hk
        · cases hk
        · cases hk
          refine ⟨hurl, ?_⟩
          intro k2
          rw [ht]
          simp
  · intro hcdn k hk
    rcases hinv with ⟨ht, _⟩ | ⟨c1, kc, cons, obj, _, _, _, _, _, _, _, _, hbr⟩
    · rw [ht] at hk
      simp at hk
    · rcases hbr with ⟨_, ht, hps⟩ | ⟨hcdn0, _, _⟩
      · rw [ht] at hk
        simp only [List.mem_cons, List.not_mem_nil, or_false] at hk
        rcases hk with hk | hk | hk
        · cases hk
        · cases hk
        · cases hk
          exact hps
      · exact absurd hcdn hcdn0

/-- C3 witness: a concrete CDN-configured client resolving the key
`h/a.txt` produces the escaped CDN URL and never presigns. -/
theorem lookup_url_resolution_witness :
    ((demoClientCdn.cdn ≠ "" → ∀ k,
        S3Call.get k ∈ [S3Call.list "h", S3Call.get "h/a.txt"] →
        ({ originalName := "a.txt", url := "https://cdn/h%2Fa.txt",
           image := false } : StoredFile).url
            = demoClientCdn.cdn ++ "/" ++ queryEscape k ∧
          ∀ k2, S3Call.presign k2 ∉ [S3Call.list "h", S3Call.get "h/a.txt"]) ∧
     (demoClientCdn.cdn = "" → ∀ k,
        S3Call.presign k ∈ [S3Call.list "h", S3Call.get "h/a.txt"] →
        demoClientCdn.backend.presignGetObject k
            = .ok ({ originalName := "a.txt", url := "https://cdn/h%2Fa.txt",
                     image := false } : StoredFile).url)) :=
  lookup_url_resolution demoClientCdn "h"
    { originalName := "a.txt", url := "https://cdn/h%2Fa.txt", image := false }
    none [S3Call.list "h", S3Call.get "h/a.txt"] rfl

/-- C4 counterexample: the stored key `h/a/b` resolves with original name
`a` — only the segment between the first and second separators — not the
entire portion `a/b` after the first separator that the claim requires for
names containing a slash. -/
theorem lookup_nested_name_counterexample :
    (LookupFile nestedClient "h").1
      = .ok { originalName := "a", url := "https://cdn/h%2Fa%2Fb", image := false } ∧
    ("a" : String) ≠ "a/b" :=
  ⟨rfl, by decide⟩

/-- C4 amended: a resolved key with no path separator yields
`ErrorInvalidKey` when the metadata fetch itself succeeds; for a resolved
key of the form `<hash>/<rest>` the returned original name is the portion
of `<rest>` before the next separator (Go's `parts[1]`), which is the
upload-time name exactly when that name contains no slash. -/
theorem lookup_original_name_amended (c : AWSClient) (pfx : String) :
    (∀ cc1 o rest, c.backend.listFail = none → c.backend.getFail = none →
      c.backend.objects.filter (fun x => pfx.data.isPrefixOf x.key.data) = o :: rest →
      cacheGetF c.cache pfx = (none, cc1) → '/' ∉ o.key.data →
      LookupFile c pfx = (.error .invalidKey, cc1, [.list pfx, .get o.key])) ∧
    (∀ f cc t, LookupFile c pfx = (.ok f, cc, t) → ∀ k, S3Call.get k ∈ t →
      ∀ pre rest2, k.data = pre ++ '/' :: rest2 → '/' ∉ pre →
        f.originalName = String.mk (rest2.takeWhile (fun ch => ch != '/'))) := by
  constructor
  · intro cc1 o rest hl hg hmatch hmiss hnos
    exact lookupFile_invalid_key c pfx cc1 hl hg o rest hmatch hmiss hnos
  · intro f cc t h k hk pre rest2 hdata hpre
    have hinv := lookupFile_ok_inversion c pfx f cc t h
    rcases hinv with ⟨ht, _⟩ | ⟨c1, kc, cons, obj, _, _, _, _, _, hname, _, _, hbr⟩
    · rw [ht] at hk
      simp at hk
    · have hname2 : f.originalName = String.mk ((splitChars '/' k.data).getD 1 []) := by
        rcases hbr with ⟨_, ht, _⟩ | ⟨_, ht, _⟩
        · rw [ht] at hk
          simp only [List.mem_cons, List.not_mem_nil, or_false] at hk
          rcases hk with hk | hk | hk
          · cases hk
          · cases hk
            exact hname
          · cases hk
        · rw [ht] at hk
          simp only [List.mem_cons, List.not_mem_nil, or_false] at hk
          rcases hk with hk | hk
          · cases hk
          · cases hk
            exact hname
      rw [hname2, hdata, splitChars_append_cons '/' pre rest2 hpre]
      cases hsp : splitChars '/' rest2 with
      | nil => exact absurd hsp (splitChars_ne_nil _ _)
      | cons h2 t2 =>
        have hh := splitChars_headD '/' rest2
        rw [hsp] at hh
        simp only [List.headD_cons] at hh
        simp [hh]

/-- C4 witness: the separator-free key `zzz` is rejected as invalid, and a
slash-free name `a.txt` is recovered verbatim from the key `h/a.txt`. -/
theorem lookup_original_name_amended_witness :
    LookupFile badKeyClient "z"
      = (.error .invalidKey, none, [S3Call.list "z", S3Call.get "zzz"]) ∧
    ({ originalName := "a.txt", url := "https://cdn/h%2Fa.txt",
       image := false } : StoredFile).originalName
      = String.mk (("a.txt".data).takeWhile (fun ch => ch != '/')) :=
  ⟨(lookup_original_name_amended badKeyClient "z").1 none
      { key := "zzz", contentType := "text/plain" } [] rfl rfl rfl rfl (by decide),
   (lookup_original_name_amended demoClientCdn "h").2
     { originalName := "a.txt", url := "https://cdn/h%2Fa.txt", image := false }
     none [S3Call.list "h", S3Call.get "h/a.txt"] rfl "h/a.txt" (by decide)
     ['h'] "a.txt".data (by decide) (by decide)⟩

theorem lookupFile_cache_none (c : AWSClient) (pfx : String) (hc : c.cache = none) :
    (LookupFile c pfx).2.1 = none := by
  unfold LookupFile
  rw [hc]
  simp only [cacheGetF]
  cases hlo : c.backend.listObjectsV2 pfx 1 with
  | error e => rfl
  | ok p =>
    obtain ⟨kc, contents⟩ := p
    simp only []
    by_cases hkc : kc < 1
    · rw [if_pos hkc]
    · rw [if_neg hkc]
      cases hgo : c.backend.getObject (contents.headD ⟨"", ""⟩).key with
      | error e => rfl
      | ok obj =>
        simp only []
        by_cases hparts : (splitChars '/' (contents.headD ⟨"", ""⟩).key.data).length < 2
        · rw [if_pos hparts]
        · rw [if_neg hparts]
          by_cases hcdn : c.cdn = ""
          · rw [if_pos (by simp [hcdn])]
            cases hps : c.backend.presignGetObject (contents.headD ⟨"", ""⟩).key with
            | error e => rfl
            | ok u => simp [cacheSetF]
          · rw [if_neg (by simpa using hcdn)]
            simp [cacheSetF]

theorem lookupFile_no_presign (c : AWSClient) (pfx : String) (hcdn : c.cdn ≠ "") :
    ∀ k, S3Call.presign k ∉ (LookupFile c pfx).2.2 := by
  intro k
  unfold LookupFile
  cases hcg : cacheGetF c.cache pfx with
  | mk v cache1 =>
    cases v with
    | some v0 => simp
    | none =>
      simp only []
      cases hlo : c.backend.listObjectsV2 pfx 1 with
      | error e => simp
      | ok p =>
        obtain ⟨kc, contents⟩ := p
        simp only []
        by_cases hkc : kc < 1
        · rw [if_pos hkc]
          simp
        · rw [if_neg hkc]
          cases hgo : c.backend.getObject (contents.headD ⟨"", ""⟩).key with
          | error e => simp
          | ok obj =>
            simp only []
            by_cases hparts : (splitChars '/' (contents.headD ⟨"", ""⟩).key.data).length < 2
            · rw [if_pos hparts]
              simp
            · rw [if_neg hparts]
              rw [if_neg (by simpa using hcdn)]
              simp

/-- C5: for a client as the constructor builds it — a cache exists only when
a CDN base is configured — any lookup that consults the presigner leaves
the cache exactly as it was, namely absent, so signed-URL results are never
stored under a public token. -/
theorem signed_url_never_cached (bucket cdn : String) (backend : S3Backend)
    (pfx : String) (r : Except AWSError StoredFile) (cc : Option LruCache)
    (t : List S3Call)
    (h : LookupFile (NewAWSClient bucket cdn backend) pfx = (r, cc, t))
    (k : String) (hk : S3Call.presign k ∈ t) :
    cc = (NewAWSClient bucket cdn backend).cache ∧ cc = none := by
  by_cases hcdn : cdn = ""
  · have hc : (NewAWSClient bucket cdn backend).cache = none := by
      simp [NewAWSClient, hcdn]
    have h2 := lookupFile_cache_none (NewAWSClient bucket cdn backend) pfx hc
    rw [h] at h2
    exact ⟨h2.trans hc.symm, h2⟩
  · exfalso
    have h2 := lookupFile_no_presign (NewAWSClient bucket cdn backend) pfx
      (by simpa [NewAWSClient] using hcdn) k
    rw [h] at h2
    exact h2 hk

/-- C5 witness: a constructor-built client with no CDN answers a lookup via
the presigner and its cache stays absent. -/
theorem signed_url_never_cached_witness :
    (none : Option LruCache) = (NewAWSClient "b" "" demoBackend).cache ∧
    (none : Option LruCache) = none :=
  signed_url_never_cached "b" "" demoBackend "h"
    (.ok { originalName := "a.txt", url := "SIG-h/a.txt", image := false })
    none [S3Call.list "h", S3Call.get "h/a.txt", S3Call.presign "h/a.txt"]
    rfl "h/a.txt" (by decide)

/-- C6 counterexample: with the prefix search succeeding on one match and
the metadata fetch failing with a timeout-style error, the lookup surfaces
`ErrorObjectMissing` — exactly the error the claim says must not appear. -/
theorem lookup_get_failure_counterexample :
    (LookupFile failGetClient "h").1 = .error .objectMissing ∧
    (AWSError.objectMissing ≠ AWSError.other "timeout") :=
  ⟨rfl, by decide⟩

/-- C6 amended: whenever the prefix search succeeds with a match but the
subsequent metadata fetch fails, the lookup returns `ErrorObjectMissing`
(Go maps every `GetObject` error to the missing-object sentinel, as its own
test `TestLookupFileGetObjectError` expects), not a generic backing-store
error. -/
theorem lookup_metadata_failure_amended (c : AWSClient) (pfx : String)
    (cc1 : Option LruCache) (e : AWSError) (o : S3Object) (rest : List S3Object)
    (hl : c.backend.listFail = none) (hg : c.backend.getFail = some e)
    (hmatch : c.backend.objects.filter (fun x => pfx.data.isPrefixOf x.key.data) = o :: rest)
    (hmiss : cacheGetF c.cache pfx = (none, cc1)) :
    LookupFile c pfx = (.error .objectMissing, cc1, [.list pfx, .get o.key]) :=
  lookupFile_get_failure c pfx cc1 hl e hg o rest hmatch hmiss

/-- C6 witness: the concrete failing-fetch client surfaces
`ErrorObjectMissing`. -/
theorem lookup_metadata_failure_amended_witness :
    LookupFile failGetClient "h"
      = (.error .objectMissing, none, [S3Call.list "h", S3Call.get "h/a.txt"]) :=
  lookup_metadata_failure_amended failGetClient "h" none (.other "timeout")
    { key := "h/a.txt", contentType := "text/plain" } [] rfl rfl rfl rfl

/-- C7: with a CDN base configured and a cache present, after a successful
lookup the immediately repeated lookup of the same token answers from the
cache with the same resolved file and performs no backing-store calls at
all — in particular it never invokes the listing call. -/
theorem lookup_cached_repeat (c : AWSClient) (pfx : String) (f : StoredFile)
    (cc : Option LruCache) (t : List S3Call) (l : LruCache)
    (hcdn : c.cdn ≠ "") (hcache : c.cache = some l)
    (h : LookupFile c pfx = (.ok f, cc, t)) :
    (LookupFile { c with cache := cc } pfx).1 = .ok f ∧
    (LookupFile { c with cache := cc } pfx).2.2 = [] := by
  have hinv := lookupFile_ok_inversion c pfx f cc t h
  have hccshape : ∃ rest, cc = some ((pfx, f) :: rest) := by
    rcases hinv with ⟨_, hhit⟩ | ⟨cache1, kc, cons, obj, hmiss, _, _, _, _, _, _, hcc, hbr⟩
    · exact cacheGetF_hit_shape c.cache pfx f cc hhit
    · have hc1 : cache1 = c.cache := by
        have h2 := cacheGetF_miss_eq c.cache pfx (by rw [hmiss])
        rw [hmiss] at h2
        exact h2
      rw [hc1, hcache] at hcc
      obtain ⟨r2, hr2⟩ := lruAdd_front l pfx f
      refine ⟨r2, ?_⟩
      rw [hcc]
      simp [cacheSetF, hr2]
  obtain ⟨rest, hrest⟩ := hccshape
  obtain ⟨rest2, hfront⟩ := cacheGetF_front_hit pfx f rest
  have hlk := lookupFile_cache_hit { c with cache := cc } pfx f (some ((pfx, f) :: rest2))
    (by rw [show ({ c with cache := cc } : AWSClient).cache = cc from rfl, hrest]; exact hfront)
  rw [hlk]
  exact ⟨rfl, rfl⟩

/-- C7 witness: after the concrete cached client resolves `h`, the repeat
lookup returns the cached file with an empty call trace. -/
theorem lookup_cached_repeat_witness :
    (LookupFile { demoClientCdnCache with
        cache := some [("h", { originalName := "a.txt", url := "https://cdn/h%2Fa.txt",
                               image := false })] } "h").1
      = .ok { originalName := "a.txt", url := "https://cdn/h%2Fa.txt", image := false } ∧
    (LookupFile { demoClientCdnCache with
        cache := some [("h", { originalName := "a.txt", url := "https://cdn/h%2Fa.txt",
                               image := false })] } "h").2.2 = [] :=
  lookup_cached_repeat demoClientCdnCache "h"
    { originalName := "a.txt", url := "https://cdn/h%2Fa.txt", image := false }
    (some [("h", { originalName := "a.txt", url := "https://cdn/h%2Fa.txt", image := false })])
    [S3Call.list "h", S3Call.get "h/a.txt"] [] (by decide) rfl rfl

/-- C8: for a request whose lookup succeeds, the handler issues an HTTP 301
redirect to the resolved URL exactly when the resolved original name's
lower-cased extension equals a dot followed by the lower-cased request
extension; on a mismatch it renders the missing-object outcome (404). -/
theorem direct_handler_ext_match (storage : String → Except AWSError StoredFile)
    (key ext : String) (f : StoredFile) (hs : storage key = .ok f) :
    (goToLower (goExt f.originalName) = "." ++ goToLower ext →
      DirectHandler storage key ext = .redirect 301 f.url) ∧
    (goToLower (goExt f.originalName) ≠ "." ++ goToLower ext →
      DirectHandler storage key ext = .notFound) := by
  have hd : DirectHandler storage key ext
      = if goToLower (goExt f.originalName) != "." ++ goToLower ext
        then ServeError .objectMissing
        else .redirect 301 f.url := by
    unfold DirectHandler
    rw [hs]
  constructor
  · intro hm
    rw [hd, if_neg (by simp [hm])]
  · intro hm
    rw [hd, if_pos (by simpa using hm)]
    rfl

/-- C8 witness: the resolved name `report.TXT` matches extension `txt`
case-insensitively and redirects with status 301, while `gif` is a
mismatch and produces the not-found outcome. -/
theorem direct_handler_ext_match_witness :
    DirectHandler demoStorage "tok1" "txt" = .redirect 301 "https://u/x" ∧
    DirectHandler demoStorage "tok1" "gif" = .notFound :=
  ⟨(direct_handler_ext_match demoStorage "tok1" "txt"
      { originalName := "report.TXT", url := "https://u/x", image := false } rfl).1
      (by decide),
   (direct_handler_ext_match demoStorage "tok1" "gif"
      { originalName := "report.TXT", url := "https://u/x", image := false } rfl).2
      (by decide)⟩

/-- C9 counterexample: an object stored with the bare content type `image`
(no slash) is classified as an image even though `image` does not begin
with `image/`, contradicting the claim's characterization. -/
theorem lookup_bare_image_counterexample :
    (LookupFile bareImageClient "h").1
      = .ok { originalName := "pic", url := "https://cdn/h%2Fpic", image := true } ∧
    ¬ ("image/".data <+: ("image" : String).data) :=
  ⟨rfl, by decide⟩

/-- C9 amended: the returned image flag is true exactly when the segment of
the stored content type before the first slash equals `image` — that is,
when the content type is exactly `image` or begins with `image/`. -/
theorem lookup_image_flag_amended (c : AWSClient) (pfx : String) (f : StoredFile)
    (cc : Option LruCache) (t : List S3Call) (obj : S3Object)
    (h : LookupFile c pfx = (.ok f, cc, t)) (k : String) (hk : S3Call.get k ∈ t)
    (hobj : c.backend.getObject k = .ok obj) :
    (f.image = true ↔
      obj.contentType = "image" ∨ "image/".data <+: obj.contentType.data) := by
  have hinv := lookupFile_ok_inversion c pfx f cc t h
  rcases hinv with ⟨ht, _⟩ | ⟨c1, kc, cons, obj2, _, _, _, hgo, _, _, himg, _, hbr⟩
  · rw [ht] at hk
    simp at hk
  · have hkeq : k = (cons.headD ⟨"", ""⟩).key := by
      rcases hbr with ⟨_, ht, _⟩ | ⟨_, ht, _⟩
      · rw [ht] at hk
        simp only [List.mem_cons, List.not_mem_nil, or_false] at hk
        rcases hk with hk | hk | hk
        · cases hk
        · cases hk
          rfl
        · cases hk
      · rw [ht] at hk
        simp only [List.mem_cons, List.not_mem_nil, or_false] at hk
        rcases hk with hk | hk
        · cases hk
        · cases hk
          rfl
    rw [hkeq] at hobj
    rw [hobj] at hgo
    have hoeq : obj = obj2 := Except.ok.inj hgo
    rw [himg, ← hoeq, splitChars_headD, beq_iff_eq,
      takeWhile_eq_iff '/' "image".data obj.contentType.data (by decide),
      show ("image".data ++ ['/'] : List Char) = "image/".data from rfl,
      ← String.ext_iff]

/-- C9 amended witness: for the stored content type `text/plain` the flag
is false and neither disjunct holds. -/
theorem lookup_image_flag_amended_witness :
    (({ originalName := "a.txt", url := "https://cdn/h%2Fa.txt",
        image := false } : StoredFile).image = true ↔
      ({ key := "h/a.txt", contentType := "text/plain" } : S3Object).contentType = "image"
        ∨ "image/".data <+:
            ({ key := "h/a.txt", contentType := "text/plain" } : S3Object).contentType.data) :=
  lookup_image_flag_amended demoClientCdn "h"
    { originalName := "a.txt", url := "https://cdn/h%2Fa.txt", image := false }
    none [S3Call.list "h", S3Call.get "h/a.txt"]
    { key := "h/a.txt", contentType := "text/plain" }
    rfl "h/a.txt" (by decide) rfl

/-- C10: a failure to store a resolved file in the cache — in particular
the error the nil-cache store operation returns — neither changes the
lookup's returned result (it equals what an identical client with a
working empty cache returns) nor surfaces as a lookup error, and the
absent cache stays absent. -/
theorem lookup_cache_set_failure_harmless (bucket cdn : String) (backend : S3Backend)
    (pfx : String) :
    (LookupFile { bucket := bucket, cdn := cdn, backend := backend, cache := none } pfx).1
      = (LookupFile { bucket := bucket, cdn := cdn, backend := backend, cache := some [] } pfx).1 ∧
    (LookupFile { bucket := bucket, cdn := cdn, backend := backend, cache := none } pfx).2.1
      = none ∧
    ∀ f : StoredFile, cacheSetF none pfx f = .error "no cache initailized" := by
  refine ⟨?_, lookupFile_cache_none _ pfx rfl, fun f => rfl⟩
  unfold LookupFile
  simp only [cacheGetF, lruGet, List.find?_nil]
  cases backend.listObjectsV2 pfx 1 with
  | error e => rfl
  | ok p =>
    obtain ⟨kc, contents⟩ := p
    simp only []
    by_cases hkc : kc < 1
    · simp only [if_pos hkc]
    · simp only [if_neg hkc]
      cases backend.getObject (contents.headD ⟨"", ""⟩).key with
      | error e => rfl
      | ok obj =>
        simp only []
        by_cases hparts : (splitChars '/' (contents.headD ⟨"", ""⟩).key.data).length < 2
        · simp only [if_pos hparts]
        · simp only [if_neg hparts]
          by_cases hcdn : cdn = ""
          · simp only [if_pos (show ((cdn == "") = true) from by simp [hcdn])]
            cases backend.presignGetObject (contents.headD ⟨"", ""⟩).key with
            | error e => rfl
            | ok u => rfl
          · simp only [if_neg (show ¬ ((cdn == "") = true) from by simpa using hcdn)]

theorem uploadFile_eq_dedup (c : AWSClient) (name ct : String) (content : List Nat)
    (f : StoredFile) (cc : Option LruCache) (t : List S3Call)
    (h : LookupFile c (Filename name content) = (.ok f, cc, t)) :
    UploadFile c name ct content
      = (.ok (formatKey (Filename name content)), { c with cache := cc }, t) := by
  unfold UploadFile
  simp only [h]

theorem uploadFile_eq_write (c : AWSClient) (name ct : String) (content : List Nat)
    (cc : Option LruCache) (t : List S3Call) (b2 : S3Backend)
    (h : LookupFile c (Filename name content) = (.error .objectMissing, cc, t))
    (hput : c.backend.putObject (Filename name content) ct = .ok b2) :
    UploadFile c name ct content
      = (.ok (formatKey (Filename name content)), { c with backend := b2, cache := cc },
         t ++ [.put (Filename name content)]) := by
  unfold UploadFile
  simp only [h]
  simp only [if_true, hput]

theorem uploadFile_twice_ok (c : AWSClient) (name contentType : String)
    (content : List Nat) (hnf : c.backend.noFailures) :
    (UploadFile c name contentType content).1 = .ok (formatKey (Filename name content)) ∧
    (UploadFile (UploadFile c name contentType content).2.1 name contentType content).1
      = .ok (formatKey (Filename name content)) ∧
    ∀ k, S3Call.put k ∉
      (UploadFile (UploadFile c name contentType content).2.1 name contentType content).2.2 := by
  obtain ⟨hl, hg, hpu, hpr⟩ := hnf
  have hslash := filename_has_slash name content
  rcases hcg : cacheGetF c.cache (Filename name content) with ⟨v, cache1⟩
  cases v with
  | some v0 =>
    have hu1 := uploadFile_eq_dedup c name contentType content v0 cache1 []
      (lookupFile_cache_hit c (Filename name content) v0 cache1 hcg)
    obtain ⟨rest, hrest⟩ := cacheGetF_hit_shape c.cache (Filename name content) v0 cache1 hcg
    obtain ⟨rest2, hfront⟩ := cacheGetF_front_hit (Filename name content) v0 rest
    have hlk2 := lookupFile_cache_hit { c with cache := cache1 } (Filename name content) v0
      (some ((Filename name content, v0) :: rest2))
      (by rw [show ({ c with cache := cache1 } : AWSClient).cache = cache1 from rfl, hrest]
          exact hfront)
    have hu2 := uploadFile_eq_dedup { c with cache := cache1 } name contentType content v0
      (some ((Filename name content, v0) :: rest2)) [] hlk2
    rw [hu1]
    refine ⟨rfl, ?_, ?_⟩
    · rw [hu2]
    · rw [hu2]
      intro k
      simp
  | none =>
    have hc1 : cache1 = c.cache := by
      have h2 := cacheGetF_miss_eq c.cache (Filename name content) (by rw [hcg])
      rw [hcg] at h2
      exact h2
    subst hc1
    cases hfil : c.backend.objects.filter
        (fun x => (Filename name content).data.isPrefixOf x.key.data) with
    | cons o rest =>
      obtain ⟨f, cc, t, hlk, hput⟩ := lookupFile_resolves c (Filename name content) c.cache
        hl hg hpr hslash o rest hfil hcg
      have hu1 := uploadFile_eq_dedup c name contentType content f cc t hlk
      rw [hu1]
      refine ⟨rfl, ?_⟩
      rcases hcg2 : cacheGetF cc (Filename name content) with ⟨v2, cache2⟩
      cases v2 with
      | some v20 =>
        have hlk2 := lookupFile_cache_hit { c with cache := cc } (Filename name content)
          v20 cache2 hcg2
        have hu2 := uploadFile_eq_dedup { c with cache := cc } name contentType content
          v20 cache2 [] hlk2
        rw [hu2]
        exact ⟨rfl, by intro k; simp⟩
      | none =>
        obtain ⟨f2, cc2, t2, hlk2, hput2⟩ := lookupFile_resolves { c with cache := cc }
          (Filename name content) cache2 hl hg hpr hslash o rest hfil hcg2
        have hu2 := uploadFile_eq_dedup { c with cache := cc } name contentType content
          f2 cc2 t2 hlk2
        rw [hu2]
        exact ⟨rfl, fun k => hput2 k⟩
    | nil =>
      have hlk := lookupFile_not_found c (Filename name content) c.cache hl hfil hcg
      have hex : ∃ b2, c.backend.putObject (Filename name content) contentType = .ok b2 := by
        unfold S3Backend.putObject
        rw [hpu]
        exact ⟨_, rfl⟩
      obtain ⟨b2, hput0⟩ := hex
      obtain ⟨hobj2, hlf2, hgf2, hpf2, hprf2⟩ :=
        putObject_preserves c.backend (Filename name content) contentType b2 hput0
      have hu1 := uploadFile_eq_write c name contentType content c.cache
        [.list (Filename name content)] b2 hlk hput0
      rw [hu1]
      refine ⟨rfl, ?_⟩
      have hrefl : (Filename name content).data.isPrefixOf (Filename name content).data
          = true := List.isPrefixOf_iff_prefix.mpr (List.prefix_refl _)
      have hfil2 : b2.objects.filter
          (fun x => (Filename name content).data.isPrefixOf x.key.data)
          = [{ key := Filename name content, contentType := contentType }] := by
        rw [hobj2, List.filter_append, hfil]
        simp [List.filter_cons, hrefl]
      obtain ⟨f2, cc2, t2, hlk2, hput2⟩ := lookupFile_resolves
        { c with backend := b2, cache := c.cache } (Filename name content) c.cache
        (hlf2.trans hl) (hgf2.trans hg) (hprf2.trans hpr) hslash
        { key := Filename name content, contentType := contentType } [] hfil2 hcg
      have hu2 := uploadFile_eq_dedup { c with backend := b2, cache := c.cache }
        name contentType content f2 cc2 t2 hlk2
      rw [hu2]
      exact ⟨rfl, fun k => hput2 k⟩

theorem uploadFile_fresh_writes (c2 : AWSClient) (name contentType : String)
    (content : List Nat)
    (hpf : c2.backend.putFail = none) (hlf : c2.backend.listFail = none)
    (hmiss : (cacheGetF c2.cache (Filename name content)).1 = none)
    (hnom : ∀ o ∈ c2.backend.objects,
      (Filename name content).data.isPrefixOf o.key.data = false) :
    S3Call.put (Filename name content) ∈ (UploadFile c2 name contentType content).2.2 ∧
    (UploadFile c2 name contentType content).1
      = .ok (formatKey (Filename name content)) := by
  have hcg : cacheGetF c2.cache (Filename name content)
      = (none, (cacheGetF c2.cache (Filename name content)).2) := by
    have h2 : cacheGetF c2.cache (Filename name content)
        = ((cacheGetF c2.cache (Filename name content)).1,
           (cacheGetF c2.cache (Filename name content)).2) := rfl
    rw [hmiss] at h2
    exact h2
  have hfil : c2.backend.objects.filter
      (fun x => (Filename name content).data.isPrefixOf x.key.data) = [] :=
    List.filter_eq_nil_iff.mpr (fun o ho => by rw [hnom o ho]; simp)
  have hlk := lookupFile_not_found c2 (Filename name content)
    (cacheGetF c2.cache (Filename name content)).2 hlf hfil hcg
  have hex : ∃ b2, c2.backend.putObject (Filename name content) contentType = .ok b2 := by
    unfold S3Backend.putObject
    rw [hpf]
    exact ⟨_, rfl⟩
  obtain ⟨b2, hput0⟩ := hex
  have hu := uploadFile_eq_write c2 name contentType content
    (cacheGetF c2.cache (Filename name content)).2
    [.list (Filename name content)] b2 hlk hput0
  rw [hu]
  exact ⟨by simp, rfl⟩

set_option maxRecDepth 100000 in
/-- C1 counterexample: after uploading two-byte content under the name
`a.txt`, uploading byte-identical content under the different name `a` is
deduplicated away: the stored key `<hash>/a.txt` extends the new full key
`<hash>/a`, the prefix search finds it, and no `PutObject` write happens,
although the claim requires identical content under a different name to be
written again. -/
theorem upload_rename_counterexample :
    Filename "a" [104, 105] ≠ Filename "a.txt" [104, 105] ∧
    (UploadFile (UploadFile emptyClientCdn "a.txt" "text/plain" [104, 105]).2.1
        "a" "text/plain" [104, 105]).2.2
      = [S3Call.list (Filename "a" [104, 105]), S3Call.get (Filename "a.txt" [104, 105])] ∧
    (∀ k, S3Call.put k ∉
      (UploadFile (UploadFile emptyClientCdn "a.txt" "text/plain" [104, 105]).2.1
        "a" "text/plain" [104, 105]).2.2) ∧
    (UploadFile (UploadFile emptyClientCdn "a.txt" "text/plain" [104, 105]).2.1
        "a" "text/plain" [104, 105]).1 = .ok (formatKey (Filename "a" [104, 105])) := by
  refine ⟨by decide, rfl, ?_, rfl⟩
  intro k
  have ht : (UploadFile (UploadFile emptyClientCdn "a.txt" "text/plain" [104, 105]).2.1
      "a" "text/plain" [104, 105]).2.2
      = [S3Call.list (Filename "a" [104, 105]), S3Call.get (Filename "a.txt" [104, 105])] := rfl
  rw [ht]
  simp

/-- C1 amended: uploading twice with byte-identical content and the
identical name returns the same public token both times and the second
call performs no write; identical content under a different name always
yields a distinct full key, and is written again provided no stored
object's key extends the new full key as a string — the prefix-based dedup
finds such an extension (for example a previously uploaded name extending
the new name) and skips the write. -/
theorem upload_dedup_amended (c c2 : AWSClient) (name1 name2 contentType : String)
    (content : List Nat) (hnf : c.backend.noFailures) (hne : name1 ≠ name2)
    (hpf2 : c2.backend.putFail = none) (hlf2 : c2.backend.listFail = none)
    (hmiss2 : (cacheGetF c2.cache (Filename name2 content)).1 = none)
    (hnom2 : ∀ o ∈ c2.backend.objects,
      (Filename name2 content).data.isPrefixOf o.key.data = false) :
    ((UploadFile c name1 contentType content).1
        = .ok (formatKey (Filename name1 content)) ∧
     (UploadFile (UploadFile c name1 contentType content).2.1 name1 contentType content).1
        = .ok (formatKey (Filename name1 content)) ∧
     ∀ k, S3Call.put k ∉
       (UploadFile (UploadFile c name1 contentType content).2.1
          name1 contentType content).2.2) ∧
    Filename name1 content ≠ Filename name2 content ∧
    S3Call.put (Filename name2 content) ∈ (UploadFile c2 name2 contentType content).2.2 :=
  ⟨uploadFile_twice_ok c name1 contentType content hnf,
   filename_ne_of_name_ne content name1 name2 hne,
   (uploadFile_fresh_writes c2 name2 contentType content hpf2 hlf2 hmiss2 hnom2).1⟩

set_option maxRecDepth 100000 in
/-- C1 witness: concrete double upload of the same two-byte content under
`a.txt` against a failure-free backend, and a fresh write of the same
content under `b.txt` into an empty store. -/
theorem upload_dedup_amended_witness :
    (demoClientCdn.backend.noFailures ∧ ("a.txt" : String) ≠ "b.txt") ∧
    (((UploadFile demoClientCdn "a.txt" "text/plain" [104, 105]).1
        = .ok (formatKey (Filename "a.txt" [104, 105])) ∧
      (UploadFile (UploadFile demoClientCdn "a.txt" "text/plain" [104, 105]).2.1
          "a.txt" "text/plain" [104, 105]).1
        = .ok (formatKey (Filename "a.txt" [104, 105])) ∧
      ∀ k, S3Call.put k ∉
        (UploadFile (UploadFile demoClientCdn "a.txt" "text/plain" [104, 105]).2.1
           "a.txt" "text/plain" [104, 105]).2.2) ∧
     Filename "a.txt" [104, 105] ≠ Filename "b.txt" [104, 105] ∧
     S3Call.put (Filename "b.txt" [104, 105])
       ∈ (UploadFile emptyClientCdn "b.txt" "text/plain" [104, 105]).2.2) :=
  ⟨⟨⟨rfl, rfl, rfl, rfl⟩, by decide⟩,
   upload_dedup_amended demoClientCdn emptyClientCdn "a.txt" "b.txt" "text/plain"
     [104, 105] ⟨rfl, rfl, rfl, rfl⟩ (by decide) rfl rfl rfl
     (fun o ho => absurd ho (by simp [emptyClientCdn, emptyBackend]))⟩
